import Mathlib

/-!
Verification of the natural-language specification of PyBox's
`f2py/ODE_solver.py` against a shallow embedding of `run_simulation`.

Numeric values (Python floats) are modelled as rationals `ℚ`; the four
precompiled Fortran kinetics kernels and the Assimulo CVode solver are
external collaborators and are modelled as opaque function parameters,
exactly as the spec's §1 scope prescribes.  Fallible operations (numpy
fancy indexing, Python list indexing and dict lookup) return `Option`.
-/

namespace PyBox

/-- The four precompiled kinetics kernels imported by `run_simulation`
(lines 134-137 of `ODE_solver.py`): `evaluate_rates_fortran`,
`reactants_fortran`, `loss_gain_fortran`, `jacobian_fortran`.  They are
external pure numerical functions; the embedding abstracts them as
function-valued fields. -/
structure Kernels where
  evaluate_rates_fortran : ℚ → ℚ → ℚ → ℚ → List ℚ
  reactants_fortran : List ℚ → List ℚ
  loss_gain_fortran : List ℚ → List ℚ
  jacobian_fortran : List ℚ → List ℚ → List (List ℚ)

/-- The `input_dict` argument of `run_simulation`, unpacked at lines
140-143.  `species_dict` is modelled by its key list (only
`len(species_dict.keys())` is used); `species_dict2array` and
`species_initial_conc` are Python dicts modelled as association lists
with distinct keys; `equations` is opaque (unpacked and never used by
`run_simulation`). -/
structure InputDict where
  species_dict : List String
  species_dict2array : List (String × ℕ)
  species_initial_conc : List (String × ℚ)
  equations : List String
deriving DecidableEq

/-- Run-wide read-only configuration captured by the `dydt_func` and
`jacobian` closures: the scalar arguments of `run_simulation`
(`start_time`, `temp`, `RH`, `H2O`), the peroxy index subset
`RO2_indices`, and `input_dict`. -/
structure Ctx where
  start_time : ℚ
  temp : ℚ
  RH : ℚ
  H2O : ℚ
  RO2_indices : List ℕ
  input_dict : InputDict
deriving DecidableEq

/-- Numpy fancy indexing `y[RO2_indices]` (lines 78 and 119): selects
the listed entries; an out-of-range index raises `IndexError`, modelled
as `none`. -/
def fancyIndex (y : List ℚ) (idx : List ℕ) : Option (List ℚ) :=
  if ∀ i ∈ idx, i < y.length then some (idx.map (fun i => y.getD i 0)) else none

/-- RHS evaluator `dydt_func(t, y)` (lines 59-96): computes
`time_of_day_seconds = start_time + t`, the peroxy aggregate
`RO2 = numpy.sum(y[RO2_indices])`, the per-reaction rate vector, the
reactant mass-action products, their element-wise product, and finally
the loss-gain contraction.  The source performs no assignment to any
closed-over variable, so the embedding is a pure function of
`(K, ctx, t, y)`. -/
def dydt_func (K : Kernels) (ctx : Ctx) (t : ℚ) (y : List ℚ) : Option (List ℚ) :=
  let time_of_day_seconds := ctx.start_time + t
  match fancyIndex y ctx.RO2_indices with
  | none => none
  | some ysel =>
    let RO2 := ysel.sum
    let rates := K.evaluate_rates_fortran RO2 ctx.H2O ctx.temp time_of_day_seconds
    let reactants0 := K.reactants_fortran y
    let reactants1 := List.zipWith (fun a b => a * b) reactants0 rates
    some (K.loss_gain_fortran reactants1)

/-- Jacobian evaluator `jacobian(t, y)` (lines 100-129): recomputes
`time_of_day_seconds` and `RO2` exactly as `dydt_func` does, calls the
rate kernel with the same four arguments, and returns
`jacobian_fortran(rates, y)`.  Pure for the same reason as
`dydt_func`. -/
def jacobian (K : Kernels) (ctx : Ctx) (t : ℚ) (y : List ℚ) : Option (List (List ℚ)) :=
  let time_of_day_seconds := ctx.start_time + t
  match fancyIndex y ctx.RO2_indices with
  | none => none
  | some ysel =>
    let RO2 := ysel.sum
    let rates := K.evaluate_rates_fortran RO2 ctx.H2O ctx.temp time_of_day_seconds
    some (K.jacobian_fortran rates y)

/-- The fixed ppb-to-molecules/cc conversion factor `Cfactor = 2.55e+10`
(line 146), written out as an integer numeral. -/
def Cfactor : ℚ := 25500000000

/-- Species count `num_species = len(species_dict.keys())` (line 149). -/
def num_species (ctx : Ctx) : ℕ := ctx.input_dict.species_dict.length

/-- Python dict lookup on an association list (first matching key);
a missing key (`KeyError`) is `none`. -/
def dict_get {α : Type} : List (String × α) → String → Option α
  | [], _ => none
  | (k, v) :: rest, s => if k = s then some v else dict_get rest s

/-- The y0-population loop of lines 155-156:
`for specie in species_initial_conc.keys(): y0[species_dict2array[specie]] = species_initial_conc[specie]*Cfactor`.
A missing key (`KeyError`) or an index at or past `len(y0)`
(`IndexError`) is `none`. -/
def build_y0 (species_dict2array : List (String × ℕ)) :
    List (String × ℚ) → List ℚ → Option (List ℚ)
  | [], y => some y
  | (specie, conc) :: rest, y =>
    match dict_get species_dict2array specie with
    | none => none
    | some i =>
      if i < y.length then build_y0 species_dict2array rest (y.set i (conc * Cfactor))
      else none

/-- The setup phase of `run_simulation` preceding the batch loop
(lines 139-156): unpack `input_dict`, create `y0 = [0]*num_species` and
populate it from `species_initial_conc`.  The setup performs no
inspection of `ctx.RO2_indices` whatsoever. -/
def run_setup (ctx : Ctx) : Option (List ℚ) :=
  build_y0 ctx.input_dict.species_dict2array ctx.input_dict.species_initial_conc
    (List.replicate (num_species ctx) 0)

/-- Time origin `t0 = 0.0` of every Assimulo problem (line 151). -/
def t0 : ℚ := 0

/-- The pre-sized row count of the output matrix:
`number_steps = int(simulation_time/batch_step)` (line 175), used as
the row dimension of `y_matrix = numpy.zeros((int(number_steps), len(y0)))`
(line 179).  Python `int()` truncates toward zero, which is the floor
for the nonnegative quotients the controller works with. -/
def number_steps (simulation_time batch_step : ℚ) : ℕ :=
  ⌊simulation_time / batch_step⌋₊

/-- The per-batch ephemeral Assimulo problem
`Explicit_Problem(dydt_func, y0, t0)` subsequently simulated for
`batch_step` seconds (lines 189, 193, 216): its initial state, its time
origin, and the requested final solver time. -/
structure Problem where
  y0 : List ℚ
  t0 : ℚ
  tfinal : ℚ
deriving DecidableEq

/-- The mutable locals of the batch loop of `run_simulation`:
the (rebindable) `y0`, `total_time`, `time_step`, `t_array`, the
sequence of `y_matrix[time_step,:] = ...` writes performed (row index
paired with the written row; bounds are NOT enforced here — whether a
write is in bounds of the pre-sized `number_steps`-row matrix is a
separate question, settled against `number_steps`), the problems
constructed so far, and the last solver trajectory `y_output`. -/
structure LoopState where
  ctx : Ctx
  y0 : List ℚ
  total_time : ℚ
  time_step : ℕ
  t_array : List ℚ
  writes : List (ℕ × List ℚ)
  problems : List Problem
  y_output : List (List ℚ)
deriving DecidableEq

/-- Last row `y_output[-1,:]` of a solver trajectory. -/
def lastRow (tr : List (List ℚ)) : List ℚ := tr.getLastD []

/-- One iteration of the batch loop body (lines 186-222): choose the
batch's initial state (`y0` if `total_time == 0.0`, else
`y_output[-1,:]`), construct the Assimulo problem with time origin
`t0`, run `exp_sim.simulate(batch_step)` (abstracted as the function
`simulate` from initial state to trajectory), then
`total_time += batch_step`, `t_array.append(total_time)`,
`y_matrix[time_step,:] = y_output[-1,:]`, `time_step += 1`. -/
def stepBatch (simulate : List ℚ → List (List ℚ)) (batch_step : ℚ)
    (st : LoopState) : LoopState :=
  let y0' := if st.total_time = 0 then st.y0 else lastRow st.y_output
  let exp_mod : Problem := { y0 := y0', t0 := t0, tfinal := batch_step }
  let y_output := simulate y0'
  { ctx := st.ctx
    y0 := y0'
    total_time := st.total_time + batch_step
    time_step := st.time_step + 1
    t_array := st.t_array ++ [st.total_time + batch_step]
    writes := st.writes ++ [(st.time_step, lastRow y_output)]
    problems := st.problems ++ [exp_mod]
    y_output := y_output }

/-- The loop state just before the batch loop starts (lines 159,
173-174): `total_time = 0.0`, `time_step = 0`, `t_array = []`, no
writes, no problems, no trajectory yet. -/
def initState (ctx : Ctx) (y0 : List ℚ) : LoopState :=
  { ctx := ctx, y0 := y0, total_time := 0, time_step := 0,
    t_array := [], writes := [], problems := [], y_output := [] }

/-- Fuel-based unfolding of `while total_time < simulation_time:`
(line 184).  Guard and body are translated literally; the fuel is a
technical device only — `batchLoop_stepIter_aux` proves that with fuel
`loopFuel` the guard is exhausted exactly when it would be for the
unbounded while loop (the guard is true at every earlier state and
false at the final one), so no iteration of the source loop is
truncated. -/
def batchLoop (simulate : List ℚ → List (List ℚ)) (simulation_time batch_step : ℚ) :
    ℕ → LoopState → LoopState
  | 0, st => st
  | Nat.succ fuel, st =>
    if st.total_time < simulation_time then
      batchLoop simulate simulation_time batch_step fuel (stepBatch simulate batch_step st)
    else st

/-- Exact iteration count of the while loop: starting from
`total_time = 0` and adding `batch_step` each iteration, the guard
`total_time < simulation_time` holds for iterations
`0, 1, ..., ⌈simulation_time/batch_step⌉₊ - 1` and then fails. -/
def loopFuel (simulation_time batch_step : ℚ) : ℕ :=
  ⌈simulation_time / batch_step⌉₊

/-- The batch-loop portion of `run_simulation` (lines 159-222): run the
while loop from the initial loop state.  The four kernels only occur
inside the solver-invoked closures, which are abstracted into
`simulate`, so they do not appear here. -/
def run_simulation (simulate : List ℚ → List (List ℚ)) (ctx : Ctx) (y0 : List ℚ)
    (simulation_time batch_step : ℚ) : LoopState :=
  batchLoop simulate simulation_time batch_step (loopFuel simulation_time batch_step)
    (initState ctx y0)

/-- State of the batch loop after `n` iterations of the body. -/
def stepIter (simulate : List ℚ → List (List ℚ)) (batch_step : ℚ)
    (ctx : Ctx) (y0 : List ℚ) (n : ℕ) : LoopState :=
  (stepBatch simulate batch_step)^[n] (initState ctx y0)

/-- Initial state of batch `k` (0-based): the run's `y0` for the first
batch, thereafter the last row of the previous batch's trajectory. -/
def batchStart (simulate : List ℚ → List (List ℚ)) (y0 : List ℚ) : ℕ → List ℚ
  | 0 => y0
  | n + 1 => lastRow (simulate (batchStart simulate y0 n))

/-- A deterministic stand-in solver for concrete witness runs: the
trajectory consists of the initial state alone. -/
def csimulate : List ℚ → List (List ℚ) := fun y => [y]

/-- Concrete kernels for witness evaluations. -/
def K0 : Kernels :=
  { evaluate_rates_fortran := fun RO2 H2O temp tod => [RO2 + H2O + temp + tod]
    reactants_fortran := fun y => [y.sum]
    loss_gain_fortran := fun r => r
    jacobian_fortran := fun rates y => [rates, y] }

/-- Concrete input dictionary for witness runs. -/
def input0 : InputDict :=
  { species_dict := ["APINENE", "PINONIC"]
    species_dict2array := [("APINENE", 0), ("PINONIC", 1)]
    species_initial_conc := [("APINENE", 1)]
    equations := [] }

/-- Concrete run context for witness runs. -/
def ctx0 : Ctx :=
  { start_time := 0, temp := 298, RH := 1/2, H2O := 0,
    RO2_indices := [0], input_dict := input0 }

/-- Run context whose peroxy index subset is out of range for its
two-species state vector (`RO2_indices = [5]`). -/
def ctx_bad : Ctx :=
  { start_time := 0, temp := 298, RH := 1/2, H2O := 0,
    RO2_indices := [5], input_dict := input0 }

/-! Helper lemmas on lists. -/

theorem getD_set_self : ∀ (l : List ℚ) (i : ℕ) (a : ℚ), i < l.length →
    (l.set i a).getD i 0 = a
  | [], i, a, h => by simp at h
  | _ :: _, 0, _, _ => rfl
  | x :: tl, i + 1, a, h => by
    simpa using getD_set_self tl i a (by simpa using h)

theorem getD_set_ne : ∀ (l : List ℚ) (i j : ℕ) (a : ℚ), i ≠ j →
    (l.set i a).getD j 0 = l.getD j 0
  | [], _, _, _, _ => rfl
  | _ :: _, 0, 0, _, h => absurd rfl h
  | _ :: _, 0, _ + 1, _, _ => by simp
  | _ :: _, _ + 1, 0, _, _ => by simp
  | x :: tl, i + 1, j + 1, a, h => by
    simpa using getD_set_ne tl i j a (fun hij => h (by rw [hij]))

theorem getD_replicate_zero : ∀ (n j : ℕ), (List.replicate n (0 : ℚ)).getD j 0 = 0
  | 0, _ => by simp
  | _ + 1, 0 => rfl
  | n + 1, j + 1 => by
    rw [List.replicate_succ, List.getD_cons_succ]
    exact getD_replicate_zero n j

theorem getD_map_range {α : Type} (f : ℕ → α) (d : α) {n k : ℕ} (h : k < n) :
    ((List.range n).map f).getD k d = f k := by
  rw [List.getD_eq_getElem?_getD, List.getElem?_map, List.getElem?_range h]
  rfl

/-! Lemmas on dictionary lookup and the y0-population loop. -/

theorem dict_get_some_mem {α : Type} : ∀ (l : List (String × α)) (s : String) (v : α),
    dict_get l s = some v → (s, v) ∈ l
  | [], s, v, h => by simp [dict_get] at h
  | (k, w) :: rest, s, v, h => by
    by_cases hk : k = s
    · subst hk
      rw [dict_get, if_pos rfl] at h
      injection h with h
      subst h
      exact List.mem_cons_self _ _
    · rw [dict_get, if_neg hk] at h
      exact List.mem_cons_of_mem _ (dict_get_some_mem rest s v h)

theorem build_y0_length (d2a : List (String × ℕ)) :
    ∀ (conc : List (String × ℚ)) (y y' : List ℚ),
      build_y0 d2a conc y = some y' → y'.length = y.length
  | [], y, y', h => by
    simp only [build_y0] at h
    injection h with h
    rw [h]
  | (s, c) :: rest, y, y', h => by
    cases hd : dict_get d2a s with
    | none => simp [build_y0, hd] at h
    | some i =>
      simp only [build_y0, hd] at h
      by_cases hi : i < y.length
      · rw [if_pos hi] at h
        rw [build_y0_length d2a rest (y.set i (c * Cfactor)) y' h, List.length_set]
      · rw [if_neg hi] at h; exact absurd h (by simp)

theorem build_y0_isSome (d2a : List (String × ℕ)) :
    ∀ (conc : List (String × ℚ)) (y : List ℚ),
      (∀ p ∈ conc, ∃ i, dict_get d2a p.1 = some i ∧ i < y.length) →
      ∃ y', build_y0 d2a conc y = some y'
  | [], y, _ => ⟨y, rfl⟩
  | (s, c) :: rest, y, h => by
    obtain ⟨i, hi, hlt⟩ := h (s, c) (List.mem_cons_self _ _)
    have hrest : ∀ p ∈ rest, ∃ i', dict_get d2a p.1 = some i' ∧
        i' < (y.set i (c * Cfactor)).length := by
      intro p hp
      obtain ⟨i', hi', hlt'⟩ := h p (List.mem_cons_of_mem _ hp)
      exact ⟨i', hi', by simpa using hlt'⟩
    obtain ⟨y', hy'⟩ := build_y0_isSome d2a rest (y.set i (c * Cfactor)) hrest
    exact ⟨y', by simp only [build_y0, hi, if_pos hlt]; exact hy'⟩

theorem build_y0_getD_untouched (d2a : List (String × ℕ)) (j : ℕ) :
    ∀ (conc : List (String × ℚ)) (y y' : List ℚ),
      build_y0 d2a conc y = some y' →
      (∀ p ∈ conc, ∀ i, dict_get d2a p.1 = some i → i ≠ j) →
      y'.getD j 0 = y.getD j 0
  | [], y, y', h, _ => by
    simp only [build_y0] at h
    injection h with h
    rw [h]
  | (s, c) :: rest, y, y', h, hnt => by
    cases hd : dict_get d2a s with
    | none => simp [build_y0, hd] at h
    | some i =>
      simp only [build_y0, hd] at h
      by_cases hi : i < y.length
      · rw [if_pos hi] at h
        have hrest : ∀ p ∈ rest, ∀ i', dict_get d2a p.1 = some i' → i' ≠ j :=
          fun p hp => hnt p (List.mem_cons_of_mem _ hp)
        have := build_y0_getD_untouched d2a j rest (y.set i (c * Cfactor)) y' h hrest
        rw [this, getD_set_ne y i j _ (hnt (s, c) (List.mem_cons_self _ _) i hd)]
      · rw [if_neg hi] at h; exact absurd h (by simp)

theorem build_y0_getD_named (d2a : List (String × ℕ))
    (hinj : ∀ p ∈ d2a, ∀ q ∈ d2a, p.2 = q.2 → p.1 = q.1) :
    ∀ (conc : List (String × ℚ)) (y y' : List ℚ) (s : String) (c : ℚ) (i : ℕ),
      (conc.map Prod.fst).Nodup →
      build_y0 d2a conc y = some y' →
      (s, c) ∈ conc → dict_get d2a s = some i → i < y.length →
      y'.getD i 0 = c * Cfactor
  | [], _, _, _, _, _, _, _, hmem, _, _ => absurd hmem (List.not_mem_nil _)
  | (s0, c0) :: rest, y, y', s, c, i, hnodup, h, hmem, hs, hi => by
    cases hd : dict_get d2a s0 with
    | none => simp [build_y0, hd] at h
    | some i0 =>
      simp only [build_y0, hd] at h
      by_cases hi0 : i0 < y.length
      · rw [if_pos hi0] at h
        rcases List.mem_cons.mp hmem with heq | hmemr
        · have hs0 : s = s0 := congrArg Prod.fst heq
          have hc0 : c = c0 := congrArg Prod.snd heq
          subst hs0; subst hc0
          have hii0 : i = i0 := by rw [hs] at hd; injection hd
          subst hii0
          have hunt : ∀ p ∈ rest, ∀ i', dict_get d2a p.1 = some i' → i' ≠ i := by
            intro p hp i' hi' hcontra
            subst hcontra
            have hm1 : (p.1, i') ∈ d2a := dict_get_some_mem d2a p.1 i' hi'
            have hm2 : (s, i') ∈ d2a := dict_get_some_mem d2a s i' hs
            have : p.1 = s := hinj (p.1, i') hm1 (s, i') hm2 rfl
            have hkeys : s ∉ rest.map Prod.fst := (List.nodup_cons.mp hnodup).1
            exact hkeys (this ▸ List.mem_map_of_mem Prod.fst hp)
          rw [build_y0_getD_untouched d2a i rest _ y' h hunt, getD_set_self y i _ hi]
        · have hnodup' : (rest.map Prod.fst).Nodup := (List.nodup_cons.mp hnodup).2
          exact build_y0_getD_named d2a hinj rest (y.set i0 (c0 * Cfactor)) y' s c i
            hnodup' h hmemr hs (by simpa using hi)
      · rw [if_neg hi0] at h; exact absurd h (by simp)

/-! Characterization of the batch loop. -/

theorem stepIter_zero (simulate : List ℚ → List (List ℚ)) (batch_step : ℚ)
    (ctx : Ctx) (y0 : List ℚ) :
    stepIter simulate batch_step ctx y0 0 = initState ctx y0 := rfl

theorem stepIter_succ (simulate : List ℚ → List (List ℚ)) (batch_step : ℚ)
    (ctx : Ctx) (y0 : List ℚ) (n : ℕ) :
    stepIter simulate batch_step ctx y0 (n + 1) =
      stepBatch simulate batch_step (stepIter simulate batch_step ctx y0 n) :=
  Function.iterate_succ_apply' _ _ _

theorem stepBatch_ctx (simulate : List ℚ → List (List ℚ)) (batch_step : ℚ)
    (st : LoopState) : (stepBatch simulate batch_step st).ctx = st.ctx := rfl

theorem stepBatch_total_time (simulate : List ℚ → List (List ℚ)) (batch_step : ℚ)
    (st : LoopState) :
    (stepBatch simulate batch_step st).total_time = st.total_time + batch_step := rfl

theorem stepIter_ctx (simulate : List ℚ → List (List ℚ)) (batch_step : ℚ)
    (ctx : Ctx) (y0 : List ℚ) : ∀ n : ℕ, (stepIter simulate batch_step ctx y0 n).ctx = ctx
  | 0 => rfl
  | n + 1 => by
    rw [stepIter_succ, stepBatch_ctx]
    exact stepIter_ctx simulate batch_step ctx y0 n

theorem stepIter_total_time (simulate : List ℚ → List (List ℚ)) (batch_step : ℚ)
    (ctx : Ctx) (y0 : List ℚ) :
    ∀ n : ℕ, (stepIter simulate batch_step ctx y0 n).total_time = n * batch_step
  | 0 => by simp [stepIter_zero, initState]
  | n + 1 => by
    rw [stepIter_succ, stepBatch_total_time,
      stepIter_total_time simulate batch_step ctx y0 n]
    push_cast
    ring

theorem stepIter_time_step (simulate : List ℚ → List (List ℚ)) (batch_step : ℚ)
    (ctx : Ctx) (y0 : List ℚ) :
    ∀ n : ℕ, (stepIter simulate batch_step ctx y0 n).time_step = n
  | 0 => rfl
  | n + 1 => by
    rw [stepIter_succ]
    show (stepIter simulate batch_step ctx y0 n).time_step + 1 = n + 1
    rw [stepIter_time_step simulate batch_step ctx y0 n]

theorem stepIter_main (simulate : List ℚ → List (List ℚ)) (batch_step : ℚ)
    (ctx : Ctx) (y0 : List ℚ) (hb : 0 < batch_step) : ∀ n : ℕ,
    (stepIter simulate batch_step ctx y0 n).y0 = batchStart simulate y0 (n - 1) ∧
    (stepIter simulate batch_step ctx y0 n).y_output =
      (if n = 0 then [] else simulate (batchStart simulate y0 (n - 1))) ∧
    (stepIter simulate batch_step ctx y0 n).t_array =
      (List.range n).map (fun k : ℕ => ((k : ℚ) + 1) * batch_step) ∧
    (stepIter simulate batch_step ctx y0 n).problems =
      (List.range n).map
        (fun k => { y0 := batchStart simulate y0 k, t0 := t0, tfinal := batch_step }) ∧
    (stepIter simulate batch_step ctx y0 n).writes =
      (List.range n).map (fun k => (k, batchStart simulate y0 (k + 1)))
  | 0 => by
    refine ⟨rfl, rfl, ?_, ?_, ?_⟩ <;> simp [stepIter_zero, initState]
  | n + 1 => by
    obtain ⟨h1, h2, h3, h4, h5⟩ := stepIter_main simulate batch_step ctx y0 hb n
    have htt := stepIter_total_time simulate batch_step ctx y0 n
    have hts := stepIter_time_step simulate batch_step ctx y0 n
    have hy0' : (if (stepIter simulate batch_step ctx y0 n).total_time = 0
        then (stepIter simulate batch_step ctx y0 n).y0
        else lastRow (stepIter simulate batch_step ctx y0 n).y_output) =
        batchStart simulate y0 n := by
      cases n with
      | zero =>
        rw [htt]
        simp [h1]
      | succ m =>
        have hne : ((m : ℚ) + 1) * batch_step ≠ 0 :=
          ne_of_gt (mul_pos (by positivity) hb)
        rw [htt]
        rw [if_neg (by push_cast; exact hne)]
        rw [h2, if_neg (Nat.succ_ne_zero m)]
        show lastRow (simulate (batchStart simulate y0 (m + 1 - 1))) = _
        rw [Nat.add_sub_cancel]
        rfl
    rw [stepIter_succ]
    refine ⟨?_, ?_, ?_, ?_, ?_⟩
    · show (if _ = 0 then _ else _) = _
      rw [hy0', Nat.add_sub_cancel]
    · show simulate (if _ = 0 then _ else _) = _
      rw [hy0', if_neg (Nat.succ_ne_zero n), Nat.add_sub_cancel]
    · show _ ++ [(stepIter simulate batch_step ctx y0 n).total_time + batch_step] = _
      rw [h3, htt, List.range_succ, List.map_append]
      simp only [List.map_cons, List.map_nil]
      congr 2
      ring
    · show _ ++ [_] = _
      rw [h4, hy0', List.range_succ, List.map_append]
      rfl
    · show _ ++ [((stepIter simulate batch_step ctx y0 n).time_step,
          lastRow (simulate (if _ = 0 then _ else _)))] = _
      rw [h5, hy0', hts, List.range_succ, List.map_append]
      rfl

/-! Fuel adequacy: the while loop runs exactly `loopFuel` iterations. -/

theorem mul_lt_of_lt_loopFuel {sim batch_step : ℚ} (hb : 0 < batch_step) {k : ℕ}
    (h : k < loopFuel sim batch_step) : (k : ℚ) * batch_step < sim := by
  have h1 : (k : ℚ) < sim / batch_step := Nat.lt_ceil.mp (by simpa [loopFuel] using h)
  exact (lt_div_iff₀ hb).mp h1

theorem le_loopFuel_mul {sim batch_step : ℚ} (hb : 0 < batch_step) :
    sim ≤ (loopFuel sim batch_step : ℚ) * batch_step := by
  have h1 : sim / batch_step ≤ (loopFuel sim batch_step : ℚ) := by
    simpa [loopFuel] using Nat.le_ceil (sim / batch_step)
  exact (div_le_iff₀ hb).mp h1

theorem batchLoop_stepIter_aux (simulate : List ℚ → List (List ℚ)) (ctx : Ctx)
    (y0 : List ℚ) (sim batch_step : ℚ) (hb : 0 < batch_step) :
    ∀ (m k : ℕ), loopFuel sim batch_step ≤ k + m → k ≤ loopFuel sim batch_step →
      batchLoop simulate sim batch_step m (stepIter simulate batch_step ctx y0 k) =
        stepIter simulate batch_step ctx y0 (loopFuel sim batch_step)
  | 0, k, h1, h2 => by
    have hk : k = loopFuel sim batch_step := le_antisymm h2 (by simpa using h1)
    rw [batchLoop, hk]
  | m + 1, k, h1, h2 => by
    rcases lt_or_eq_of_le h2 with hk | hk
    · have hguard : (stepIter simulate batch_step ctx y0 k).total_time < sim := by
        rw [stepIter_total_time]
        exact mul_lt_of_lt_loopFuel hb hk
      rw [batchLoop, if_pos hguard, ← stepIter_succ]
      exact batchLoop_stepIter_aux simulate ctx y0 sim batch_step hb m (k + 1) (by omega) (by omega)
    · have hguard : ¬ (stepIter simulate batch_step ctx y0 k).total_time < sim := by
        rw [stepIter_total_time, hk]
        exact not_lt.mpr (le_loopFuel_mul hb)
      rw [batchLoop, if_neg hguard, hk]

theorem run_simulation_eq_stepIter (simulate : List ℚ → List (List ℚ)) (ctx : Ctx)
    (y0 : List ℚ) {sim batch_step : ℚ} (hb : 0 < batch_step) :
    run_simulation simulate ctx y0 sim batch_step =
      stepIter simulate batch_step ctx y0 (loopFuel sim batch_step) := by
  have h := batchLoop_stepIter_aux simulate ctx y0 sim batch_step hb
    (loopFuel sim batch_step) 0 (by omega) (by omega)
  rw [run_simulation, ← stepIter_zero simulate batch_step ctx y0]
  exact h

theorem loop_guard_fails (simulate : List ℚ → List (List ℚ)) (ctx : Ctx)
    (y0 : List ℚ) {sim batch_step : ℚ} (hb : 0 < batch_step) :
    ¬ (stepIter simulate batch_step ctx y0 (loopFuel sim batch_step)).total_time < sim := by
  rw [stepIter_total_time]
  exact not_lt.mpr (le_loopFuel_mul hb)

/-! Arithmetic facts connecting the loop iteration count (`loopFuel`,
the ceiling) and the pre-sized row count (`number_steps`, the floor). -/

theorem loopFuel_le_number_steps_iff {sim batch_step : ℚ} (hs : 0 < sim)
    (hb : 0 < batch_step) :
    loopFuel sim batch_step ≤ number_steps sim batch_step ↔
      ∃ n : ℕ, sim = (n : ℚ) * batch_step := by
  have hx : 0 < sim / batch_step := div_pos hs hb
  simp only [loopFuel, number_steps]
  constructor
  · intro h
    have h1 : sim / batch_step ≤ (⌈sim / batch_step⌉₊ : ℚ) := Nat.le_ceil _
    have h2 : ((⌈sim / batch_step⌉₊ : ℚ)) ≤ ((⌊sim / batch_step⌋₊ : ℚ)) := by
      exact_mod_cast h
    have h3 : ((⌊sim / batch_step⌋₊ : ℚ)) ≤ sim / batch_step := Nat.floor_le hx.le
    have hxeq : sim / batch_step = (⌊sim / batch_step⌋₊ : ℚ) :=
      le_antisymm (h1.trans h2) h3
    refine ⟨⌊sim / batch_step⌋₊, ?_⟩
    calc sim = sim / batch_step * batch_step := (div_mul_cancel₀ sim hb.ne').symm
    _ = (⌊sim / batch_step⌋₊ : ℚ) * batch_step :=
      congrArg (fun z => z * batch_step) hxeq
  · rintro ⟨n, rfl⟩
    have hdiv : ((n : ℚ) * batch_step) / batch_step = (n : ℚ) :=
      mul_div_cancel_right₀ _ hb.ne'
    rw [hdiv, Nat.ceil_natCast, Nat.floor_natCast]

theorem loopFuel_eq_number_steps_add_one {sim batch_step : ℚ} (hs : 0 < sim)
    (hb : 0 < batch_step) (h : ¬ ∃ n : ℕ, sim = (n : ℚ) * batch_step) :
    loopFuel sim batch_step = number_steps sim batch_step + 1 := by
  have h1 : ¬ loopFuel sim batch_step ≤ number_steps sim batch_step :=
    fun hle => h ((loopFuel_le_number_steps_iff hs hb).mp hle)
  have h2 : loopFuel sim batch_step ≤ number_steps sim batch_step + 1 := by
    simpa [loopFuel, number_steps] using Nat.ceil_le_floor_add_one (sim / batch_step)
  omega

theorem batchLoop_ctx (simulate : List ℚ → List (List ℚ)) (sim batch_step : ℚ) :
    ∀ (fuel : ℕ) (st : LoopState),
      (batchLoop simulate sim batch_step fuel st).ctx = st.ctx
  | 0, st => rfl
  | fuel + 1, st => by
    rw [batchLoop]
    by_cases hg : st.total_time < sim
    · rw [if_pos hg, batchLoop_ctx simulate sim batch_step fuel _, stepBatch_ctx]
    · rw [if_neg hg]

theorem stepBatch_problems (simulate : List ℚ → List (List ℚ)) (batch_step : ℚ)
    (st : LoopState) :
    (stepBatch simulate batch_step st).problems = st.problems ++
      [{ y0 := if st.total_time = 0 then st.y0 else lastRow st.y_output,
         t0 := t0, tfinal := batch_step }] := rfl

theorem batchLoop_problems_inv (simulate : List ℚ → List (List ℚ)) (sim batch_step : ℚ) :
    ∀ (fuel : ℕ) (st : LoopState),
      (∀ p ∈ st.problems, p.t0 = 0 ∧ p.tfinal = batch_step) →
      ∀ p ∈ (batchLoop simulate sim batch_step fuel st).problems,
        p.t0 = 0 ∧ p.tfinal = batch_step
  | 0, st, h => h
  | fuel + 1, st, h => by
    rw [batchLoop]
    by_cases hg : st.total_time < sim
    · rw [if_pos hg]
      apply batchLoop_problems_inv simulate sim batch_step fuel
      intro p hp
      rw [stepBatch_problems] at hp
      rcases List.mem_append.mp hp with hin | hnew
      · exact h p hin
      · rw [List.mem_singleton] at hnew
        subst hnew
        exact ⟨rfl, rfl⟩
    · rw [if_neg hg]
      exact h

/-- C10: the run context (`input_dict` and the values unpacked from it,
together with `temp`, `H2O`, `RH` and `RO2_indices`, all bundled in
`Ctx`) is never mutated by `run_simulation` after setup: the context is
unchanged across every single batch iteration, after any number of
iterations, and in the final state of the whole run.  The RHS and
Jacobian evaluators are pure functions of `(K, ctx, t, y)` in this
embedding because the source contains no assignment to any of these
closed-over variables. -/
theorem C10_ctx_read_only (simulate : List ℚ → List (List ℚ)) (ctx : Ctx) (y0 : List ℚ)
    (sim batch_step : ℚ) :
    (∀ n : ℕ, (stepIter simulate batch_step ctx y0 (n + 1)).ctx =
      (stepIter simulate batch_step ctx y0 n).ctx) ∧
    (∀ n : ℕ, (stepIter simulate batch_step ctx y0 n).ctx = ctx) ∧
    (run_simulation simulate ctx y0 sim batch_step).ctx = ctx := by
  refine ⟨?_, stepIter_ctx simulate batch_step ctx y0, ?_⟩
  · intro n
    rw [stepIter_succ, stepBatch_ctx]
  · rw [run_simulation, batchLoop_ctx]
    rfl

/-- C3: for every time offset `t` and state vector `y` (with the peroxy
indices in range, so that the numpy fancy indexing succeeds),
`dydt_func` returns exactly `loss_gain(r)` where `r` is the element-wise
product of `evaluate_rates(RO2, H2O, temp, start_time + t)` and
`reactant_products(y)`, and `RO2` is the sum of the entries of `y` at
`RO2_indices` (an empty subset yielding 0).  No side effects: the
embedding is a pure function, see `C10_ctx_read_only`. -/
theorem C3_dydt_func_spec (K : Kernels) (ctx : Ctx) (t : ℚ) (y : List ℚ)
    (h : ∀ i ∈ ctx.RO2_indices, i < y.length) :
    dydt_func K ctx t y =
      some (K.loss_gain_fortran (List.zipWith (fun a b => a * b)
        (K.evaluate_rates_fortran ((ctx.RO2_indices.map (fun i => y.getD i 0)).sum)
          ctx.H2O ctx.temp (ctx.start_time + t))
        (K.reactants_fortran y))) ∧
    (ctx.RO2_indices = [] → (ctx.RO2_indices.map (fun i => y.getD i 0)).sum = 0) := by
  have hfi : fancyIndex y ctx.RO2_indices =
      some (ctx.RO2_indices.map (fun i => y.getD i 0)) := by
    rw [fancyIndex, if_pos h]
  constructor
  · simp only [dydt_func, hfi]
    rw [List.zipWith_comm_of_comm (fun a b : ℚ => a * b) mul_comm]
  · intro h0
    rw [h0]
    simp

/-- Witness for `C3_dydt_func_spec` at concrete inputs. -/
theorem C3_dydt_func_spec_witness :
    dydt_func K0 ctx0 0 [1, 2] =
      some (K0.loss_gain_fortran (List.zipWith (fun a b => a * b)
        (K0.evaluate_rates_fortran ((ctx0.RO2_indices.map
            (fun i => List.getD [(1 : ℚ), 2] i 0)).sum)
          ctx0.H2O ctx0.temp (ctx0.start_time + 0))
        (K0.reactants_fortran [1, 2]))) ∧
    (ctx0.RO2_indices = [] →
      (ctx0.RO2_indices.map (fun i => List.getD [(1 : ℚ), 2] i 0)).sum = 0) :=
  C3_dydt_func_spec K0 ctx0 0 [1, 2] (by decide)

/-- C4: for every time offset `t` and state vector `y` (with the peroxy
indices in range), the Jacobian evaluator recomputes
`start_time + t` and the peroxy aggregate exactly as the RHS evaluator
does, calls the rate kernel with the identical four arguments, and
returns `jacobian_assemble(rate_vector, y)`; the second conjunct
exhibits the rate-kernel call inside `dydt_func` with the very same
argument expressions, so no value is cached between the two evaluators
(each is a pure function recomputing from scratch). -/
theorem C4_jacobian_spec (K : Kernels) (ctx : Ctx) (t : ℚ) (y : List ℚ)
    (h : ∀ i ∈ ctx.RO2_indices, i < y.length) :
    jacobian K ctx t y =
      some (K.jacobian_fortran
        (K.evaluate_rates_fortran ((ctx.RO2_indices.map (fun i => y.getD i 0)).sum)
          ctx.H2O ctx.temp (ctx.start_time + t)) y) ∧
    dydt_func K ctx t y =
      some (K.loss_gain_fortran (List.zipWith (fun a b => a * b)
        (K.reactants_fortran y)
        (K.evaluate_rates_fortran ((ctx.RO2_indices.map (fun i => y.getD i 0)).sum)
          ctx.H2O ctx.temp (ctx.start_time + t)))) := by
  have hfi : fancyIndex y ctx.RO2_indices =
      some (ctx.RO2_indices.map (fun i => y.getD i 0)) := by
    rw [fancyIndex, if_pos h]
  constructor
  · simp only [jacobian, hfi]
  · simp only [dydt_func, hfi]

/-- Witness for `C4_jacobian_spec` at concrete inputs. -/
theorem C4_jacobian_spec_witness :
    jacobian K0 ctx0 1 [2, 3] =
      some (K0.jacobian_fortran
        (K0.evaluate_rates_fortran ((ctx0.RO2_indices.map
            (fun i => List.getD [(2 : ℚ), 3] i 0)).sum)
          ctx0.H2O ctx0.temp (ctx0.start_time + 1)) [2, 3]) ∧
    dydt_func K0 ctx0 1 [2, 3] =
      some (K0.loss_gain_fortran (List.zipWith (fun a b => a * b)
        (K0.reactants_fortran [2, 3])
        (K0.evaluate_rates_fortran ((ctx0.RO2_indices.map
            (fun i => List.getD [(2 : ℚ), 3] i 0)).sum)
          ctx0.H2O ctx0.temp (ctx0.start_time + 1)))) :=
  C4_jacobian_spec K0 ctx0 1 [2, 3] (by decide)

/-- C2: configuration inconsistencies are NOT detected at setup.
For `ctx_bad` (peroxy index 5 in a two-species run) the setup phase of
`run_simulation` (lines 139-156, which never inspects `RO2_indices`)
completes successfully and produces the initial state vector, while the
very first RHS or Jacobian evaluation — which happens inside the first
batch's solver call, i.e. per-evaluation — fails on the out-of-range
peroxy index.  This contradicts the spec's requirement that such an
inconsistency "must be detected once at setup (not per-evaluation) and
reported before any batch executes": the code contains no setup
validation at all. -/
theorem C2_inconsistency_not_detected_at_setup :
    run_setup ctx_bad = some [Cfactor, 0] ∧
    (∀ K : Kernels, dydt_func K ctx_bad 0 [Cfactor, 0] = none) ∧
    (∀ K : Kernels, jacobian K ctx_bad 0 [Cfactor, 0] = none) := by
  have hfi : fancyIndex [Cfactor, 0] ctx_bad.RO2_indices = none := by
    rw [fancyIndex, if_neg (by decide)]
  refine ⟨?_, fun K => ?_, fun K => ?_⟩
  · simp [run_setup, ctx_bad, input0, build_y0, dict_get, num_species, List.replicate_succ]
  · simp only [dydt_func, hfi]
  · simp only [jacobian, hfi]

/-! Evaluation helper lemmas for concrete runs. -/

theorem loopFuel_natCast_mul {batch_step : ℚ} (hb : 0 < batch_step) (n : ℕ) :
    loopFuel ((n : ℚ) * batch_step) batch_step = n := by
  rw [loopFuel, mul_div_cancel_right₀ _ hb.ne', Nat.ceil_natCast]

theorem number_steps_natCast_mul {batch_step : ℚ} (hb : 0 < batch_step) (n : ℕ) :
    number_steps ((n : ℚ) * batch_step) batch_step = n := by
  rw [number_steps, mul_div_cancel_right₀ _ hb.ne', Nat.floor_natCast]

theorem q300_eq : (300 : ℚ) = ((3 : ℕ) : ℚ) * 100 := by norm_num

theorem loopFuel_3600_100 : loopFuel 3600 100 = 36 := by
  rw [loopFuel]
  norm_num

theorem number_steps_3600_100 : number_steps 3600 100 = 36 := by
  have h : (3600 : ℚ) / 100 = ((36 : ℕ) : ℚ) := by norm_num
  rw [number_steps, h, Nat.floor_natCast]

theorem loopFuel_150_100 : loopFuel 150 100 = 2 := by
  rw [loopFuel, Nat.ceil_eq_iff (by norm_num)]
  norm_num

theorem number_steps_150_100 : number_steps 150 100 = 1 := by
  rw [number_steps, Nat.floor_eq_iff (by norm_num)]
  norm_num

theorem loopFuel_300_100 : loopFuel 300 100 = 3 := by
  rw [loopFuel]
  norm_num

theorem loopFuel_100_100 : loopFuel 100 100 = 1 := by
  rw [loopFuel]
  norm_num

theorem run_150_100_writes_length :
    (run_simulation csimulate ctx0 [Cfactor, 0] 150 100).writes.length = 2 := by
  rw [run_simulation_eq_stepIter csimulate ctx0 [Cfactor, 0] (by decide : (0 : ℚ) < 100)]
  obtain ⟨h1, h2, h3, h4, h5⟩ :=
    stepIter_main csimulate 100 ctx0 [Cfactor, 0] (by decide) (loopFuel 150 100)
  rw [h5, loopFuel_150_100]
  simp

theorem run_300_100_problems_length :
    (run_simulation csimulate ctx0 [Cfactor, 0] 300 100).problems.length = 3 := by
  rw [run_simulation_eq_stepIter csimulate ctx0 [Cfactor, 0] (by decide : (0 : ℚ) < 100)]
  obtain ⟨h1, h2, h3, h4, h5⟩ :=
    stepIter_main csimulate 100 ctx0 [Cfactor, 0] (by decide) (loopFuel 300 100)
  rw [h4, loopFuel_300_100]
  simp

theorem run_100_100_problems :
    (run_simulation csimulate ctx0 [Cfactor, 0] 100 100).problems =
      [{ y0 := [Cfactor, 0], t0 := 0, tfinal := 100 }] := by
  rw [run_simulation_eq_stepIter csimulate ctx0 [Cfactor, 0] (by decide : (0 : ℚ) < 100)]
  obtain ⟨h1, h2, h3, h4, h5⟩ :=
    stepIter_main csimulate 100 ctx0 [Cfactor, 0] (by decide) (loopFuel 100 100)
  rw [h4, loopFuel_100_100]
  rfl

theorem chain'_map_range (R : ℚ → ℚ → Prop) (f : ℕ → ℚ)
    (hstep : ∀ k : ℕ, R (f k) (f (k + 1))) :
    ∀ n : ℕ, List.Chain' R ((List.range n).map f)
  | 0 => by simp
  | n + 1 => by
    rw [List.range_succ, List.map_append]
    refine List.Chain'.append (chain'_map_range R f hstep n) (by simp) ?_
    intro x hx y hy
    cases n with
    | zero => simp at hx
    | succ m =>
      rw [List.range_succ, List.map_append] at hx
      simp only [List.map_cons, List.map_nil] at hx
      rw [List.getLast?_concat, Option.mem_some_iff] at hx
      simp only [List.map_cons, List.map_nil, List.head?_cons,
        Option.mem_some_iff] at hy
      rw [← hx, ← hy]
      exact hstep m

/-! The claim theorems for the batch-loop claims. -/

/-- C5: for every batch N (0-based here), the initial state passed to
the solver for batch N+1 equals, entry for entry, the last state of the
trajectory returned by the solver for batch N, which is also the state
recorded as the N-th row of the time-series matrix; the first batch
starts from the run's configured initial concentrations `y0`. -/
theorem C5_state_carry_over (simulate : List ℚ → List (List ℚ)) (ctx : Ctx) (y0 : List ℚ)
    (sim batch_step : ℚ) (hb : 0 < batch_step) (N : ℕ)
    (hN : N + 1 < (run_simulation simulate ctx y0 sim batch_step).problems.length) :
    ((run_simulation simulate ctx y0 sim batch_step).problems.getD (N + 1)
        { y0 := [], t0 := 0, tfinal := 0 }).y0 =
      lastRow (simulate (((run_simulation simulate ctx y0 sim batch_step).problems.getD N
        { y0 := [], t0 := 0, tfinal := 0 }).y0)) ∧
    ((run_simulation simulate ctx y0 sim batch_step).problems.getD (N + 1)
        { y0 := [], t0 := 0, tfinal := 0 }).y0 =
      ((run_simulation simulate ctx y0 sim batch_step).writes.getD N (0, [])).2 ∧
    ((run_simulation simulate ctx y0 sim batch_step).problems.getD 0
        { y0 := [], t0 := 0, tfinal := 0 }).y0 = y0 := by
  rw [run_simulation_eq_stepIter simulate ctx y0 hb] at hN ⊢
  obtain ⟨h1, h2, h3, h4, h5⟩ :=
    stepIter_main simulate batch_step ctx y0 hb (loopFuel sim batch_step)
  rw [h4] at hN
  rw [List.length_map, List.length_range] at hN
  rw [h4, h5]
  refine ⟨?_, ?_, ?_⟩
  · rw [getD_map_range _ _ hN, getD_map_range _ _ (by omega)]
    rfl
  · rw [getD_map_range _ _ hN, getD_map_range _ _ (by omega)]
  · rw [getD_map_range _ _ (by omega)]
    rfl

/-- Witness for `C5_state_carry_over`: a three-batch run. -/
theorem C5_state_carry_over_witness :
    ((run_simulation csimulate ctx0 [Cfactor, 0] 300 100).problems.getD 1
        { y0 := [], t0 := 0, tfinal := 0 }).y0 =
      lastRow (csimulate (((run_simulation csimulate ctx0 [Cfactor, 0] 300 100).problems.getD 0
        { y0 := [], t0 := 0, tfinal := 0 }).y0)) ∧
    ((run_simulation csimulate ctx0 [Cfactor, 0] 300 100).problems.getD 1
        { y0 := [], t0 := 0, tfinal := 0 }).y0 =
      ((run_simulation csimulate ctx0 [Cfactor, 0] 300 100).writes.getD 0 (0, [])).2 ∧
    ((run_simulation csimulate ctx0 [Cfactor, 0] 300 100).problems.getD 0
        { y0 := [], t0 := 0, tfinal := 0 }).y0 = [Cfactor, 0] :=
  C5_state_carry_over csimulate ctx0 [Cfactor, 0] 300 100 (by decide) 0
    (by rw [run_300_100_problems_length]; decide)

/-- C6: for `simulation_time = 3600` and `batch_step = 100` (every
solver invocation succeeding, as `simulate` is total), the produced
time series has exactly 36 rows, the matrix is pre-sized to 36 rows,
and the recorded elapsed times are `100, 200, ..., 3600`: the k-th
entry is `(k+1)*100` and each successive entry exceeds the previous by
exactly 100. -/
theorem C6_rowcount_3600_100 (simulate : List ℚ → List (List ℚ)) (ctx : Ctx)
    (y0 : List ℚ) :
    (run_simulation simulate ctx y0 3600 100).writes.length = 36 ∧
    number_steps 3600 100 = 36 ∧
    (run_simulation simulate ctx y0 3600 100).t_array =
      (List.range 36).map (fun k : ℕ => ((k : ℚ) + 1) * 100) ∧
    List.Chain' (fun a b => b = a + 100) (run_simulation simulate ctx y0 3600 100).t_array := by
  have hb : (0 : ℚ) < 100 := by norm_num
  rw [run_simulation_eq_stepIter simulate ctx y0 hb]
  obtain ⟨h1, h2, h3, h4, h5⟩ := stepIter_main simulate 100 ctx y0 hb (loopFuel 3600 100)
  refine ⟨?_, number_steps_3600_100, ?_, ?_⟩
  · rw [h5, loopFuel_3600_100]
    simp
  · rw [h3, loopFuel_3600_100]
  · rw [h3]
    refine chain'_map_range _ _ (fun k => ?_) _
    push_cast
    ring

/-- C7: for positive `simulation_time` and `batch_step`, the batch loop
performs exactly `⌈simulation_time/batch_step⌉₊` row writes at indices
`0, 1, ...` while `y_matrix` is pre-sized to
`int(simulation_time/batch_step)` rows, every write is in bounds if and
only if `simulation_time` is an exact integer multiple of `batch_step`,
and otherwise the loop count is `number_steps + 1`, so the final write
indexes exactly one row past the end of the matrix. -/
theorem C7_write_bounds (simulate : List ℚ → List (List ℚ)) (ctx : Ctx) (y0 : List ℚ)
    (sim batch_step : ℚ) (hs : 0 < sim) (hb : 0 < batch_step) :
    ((run_simulation simulate ctx y0 sim batch_step).writes.map Prod.fst =
      List.range (loopFuel sim batch_step)) ∧
    ((∀ w ∈ (run_simulation simulate ctx y0 sim batch_step).writes,
        w.1 < number_steps sim batch_step) ↔
      ∃ n : ℕ, sim = (n : ℚ) * batch_step) ∧
    (¬ (∃ n : ℕ, sim = (n : ℚ) * batch_step) →
      loopFuel sim batch_step = number_steps sim batch_step + 1) := by
  rw [run_simulation_eq_stepIter simulate ctx y0 hb]
  obtain ⟨h1, h2, h3, h4, h5⟩ :=
    stepIter_main simulate batch_step ctx y0 hb (loopFuel sim batch_step)
  refine ⟨?_, ?_, loopFuel_eq_number_steps_add_one hs hb⟩
  · rw [h5, List.map_map]
    have hcomp : (Prod.fst ∘ fun k : ℕ => (k, batchStart simulate y0 (k + 1))) = id := rfl
    rw [hcomp, List.map_id]
  · rw [h5]
    constructor
    · intro hall
      refine (loopFuel_le_number_steps_iff hs hb).mp ?_
      have hFpos : 0 < loopFuel sim batch_step := by
        rw [loopFuel]
        exact Nat.ceil_pos.mpr (div_pos hs hb)
      have hmem : ((loopFuel sim batch_step - 1 : ℕ),
          batchStart simulate y0 (loopFuel sim batch_step - 1 + 1)) ∈
          (List.range (loopFuel sim batch_step)).map
            (fun k : ℕ => (k, batchStart simulate y0 (k + 1))) :=
        List.mem_map_of_mem _ (List.mem_range.mpr (by omega))
      have hlt : loopFuel sim batch_step - 1 < number_steps sim batch_step := hall _ hmem
      omega
    · rintro hmul w hw
      have hle := (loopFuel_le_number_steps_iff hs hb).mpr hmul
      obtain ⟨k, hk, rfl⟩ := List.mem_map.mp hw
      have hkr := List.mem_range.mp hk
      show k < number_steps sim batch_step
      omega

/-- Witness for `C7_write_bounds` at `simulation_time = 150`,
`batch_step = 100` (not an exact multiple). -/
theorem C7_write_bounds_witness :
    ((run_simulation csimulate ctx0 [Cfactor, 0] 150 100).writes.map Prod.fst =
      List.range (loopFuel 150 100)) ∧
    ((∀ w ∈ (run_simulation csimulate ctx0 [Cfactor, 0] 150 100).writes,
        w.1 < number_steps 150 100) ↔ ∃ n : ℕ, (150 : ℚ) = (n : ℚ) * 100) ∧
    (¬ (∃ n : ℕ, (150 : ℚ) = (n : ℚ) * 100) →
      loopFuel 150 100 = number_steps 150 100 + 1) :=
  C7_write_bounds csimulate ctx0 [Cfactor, 0] 150 100 (by decide) (by decide)

/-- C1 counterexample: at `simulation_time = 150`, `batch_step = 100`
— both positive, as the claim requires — the loop performs 2 row
writes while `floor(150/100) = 1`, so the run does NOT produce exactly
`floor(total_horizon/batch_duration)` rows: the claim fails whenever
the horizon is not an exact multiple of the batch duration (the final
write is out of bounds of the pre-sized matrix, see
`C7_write_bounds`). -/
theorem C1_counterexample :
    (0 : ℚ) < 150 ∧ (0 : ℚ) < 100 ∧
    (run_simulation csimulate ctx0 [Cfactor, 0] 150 100).writes.length ≠
      number_steps 150 100 := by
  refine ⟨by decide, by decide, ?_⟩
  rw [run_150_100_writes_length, number_steps_150_100]
  decide

/-- C1 (amended): for every run whose positive `simulation_time` is an
exact positive integer multiple of its positive `batch_step`, the batch
loop produces exactly `number_steps = floor(simulation_time/batch_step)`
rows, every row write lands inside the table pre-sized to exactly that
row count, and `total_time` increases by exactly one `batch_step` on
every loop iteration (the increment holds unconditionally). -/
theorem C1_rows_when_exact_multiple (simulate : List ℚ → List (List ℚ)) (ctx : Ctx)
    (y0 : List ℚ) (sim batch_step : ℚ) (hb : 0 < batch_step)
    (hm : ∃ n : ℕ, 0 < n ∧ sim = (n : ℚ) * batch_step) :
    (run_simulation simulate ctx y0 sim batch_step).writes.length =
      number_steps sim batch_step ∧
    (∀ w ∈ (run_simulation simulate ctx y0 sim batch_step).writes,
      w.1 < number_steps sim batch_step) ∧
    (∀ k : ℕ, (stepIter simulate batch_step ctx y0 (k + 1)).total_time =
      (stepIter simulate batch_step ctx y0 k).total_time + batch_step) := by
  obtain ⟨n, hn, rfl⟩ := hm
  rw [run_simulation_eq_stepIter simulate ctx y0 hb]
  obtain ⟨h1, h2, h3, h4, h5⟩ := stepIter_main simulate batch_step ctx y0 hb
    (loopFuel ((n : ℚ) * batch_step) batch_step)
  rw [number_steps_natCast_mul hb n]
  refine ⟨?_, ?_, ?_⟩
  · rw [h5, loopFuel_natCast_mul hb n]
    simp
  · intro w hw
    rw [h5, loopFuel_natCast_mul hb n] at hw
    obtain ⟨k, hk, rfl⟩ := List.mem_map.mp hw
    show k < n
    exact List.mem_range.mp hk
  · intro k
    rw [stepIter_succ, stepBatch_total_time]

/-- Witness for `C1_rows_when_exact_multiple` at
`simulation_time = 300 = 3 * 100`. -/
theorem C1_rows_when_exact_multiple_witness :
    (run_simulation csimulate ctx0 [Cfactor, 0] 300 100).writes.length =
      number_steps 300 100 ∧
    (∀ w ∈ (run_simulation csimulate ctx0 [Cfactor, 0] 300 100).writes,
      w.1 < number_steps 300 100) ∧
    (∀ k : ℕ, (stepIter csimulate 100 ctx0 [Cfactor, 0] (k + 1)).total_time =
      (stepIter csimulate 100 ctx0 [Cfactor, 0] k).total_time + 100) :=
  C1_rows_when_exact_multiple csimulate ctx0 [Cfactor, 0] 300 100 (by decide)
    ⟨3, by decide, q300_eq⟩

/-- C8: every batch's solver problem is constructed with time origin
`t0 = 0` and is simulated for `batch_step` seconds, so for any solver
time `s` in the batch's range `[t0, t0 + batch_step]` the
`time_of_day_seconds = start_time + s` supplied to the rate kernel
never exceeds `start_time + batch_step`, regardless of cumulative
elapsed simulation time. -/
theorem C8_problem_t0 (simulate : List ℚ → List (List ℚ)) (ctx : Ctx) (y0 : List ℚ)
    (sim batch_step : ℚ) (p : Problem)
    (hp : p ∈ (run_simulation simulate ctx y0 sim batch_step).problems) :
    p.t0 = 0 ∧ p.tfinal = batch_step ∧
    ∀ s : ℚ, p.t0 ≤ s → s ≤ p.t0 + p.tfinal →
      ctx.start_time + s ≤ ctx.start_time + batch_step := by
  have h := batchLoop_problems_inv simulate sim batch_step
    (loopFuel sim batch_step) (initState ctx y0)
    (fun q hq => absurd hq (List.not_mem_nil q)) p hp
  obtain ⟨ht0, htf⟩ := h
  refine ⟨ht0, htf, ?_⟩
  intro s h1 h2
  rw [ht0, htf] at h2
  linarith

/-- Witness for `C8_problem_t0`: the single problem of a one-batch
run. -/
theorem C8_problem_t0_witness :
    (⟨[Cfactor, 0], 0, 100⟩ : Problem).t0 = 0 ∧
    (⟨[Cfactor, 0], 0, 100⟩ : Problem).tfinal = 100 ∧
    ∀ s : ℚ, (⟨[Cfactor, 0], 0, 100⟩ : Problem).t0 ≤ s →
      s ≤ (⟨[Cfactor, 0], 0, 100⟩ : Problem).t0 + (⟨[Cfactor, 0], 0, 100⟩ : Problem).tfinal →
      ctx0.start_time + s ≤ ctx0.start_time + 100 :=
  C8_problem_t0 csimulate ctx0 [Cfactor, 0] 100 100 ⟨[Cfactor, 0], 0, 100⟩
    (by rw [run_100_100_problems]; exact List.mem_singleton.mpr rfl)

/-- C9: the initial state vector `y0` has length `num_species`, the
entry at the mapped index of every species named in
`species_initial_conc` equals its configured concentration times the
fixed factor `Cfactor = 2.55e10`, and every entry belonging to a
species not named in `species_initial_conc` is exactly 0 (under the
well-formedness of the run context: distinct dict keys, in-range
injective species-to-index mapping). -/
theorem C9_y0_initialisation (ctx : Ctx)
    (hnodup : (ctx.input_dict.species_initial_conc.map Prod.fst).Nodup)
    (hrange : ∀ p ∈ ctx.input_dict.species_initial_conc,
      ∃ i, dict_get ctx.input_dict.species_dict2array p.1 = some i ∧ i < num_species ctx)
    (hinj : ∀ p ∈ ctx.input_dict.species_dict2array,
      ∀ q ∈ ctx.input_dict.species_dict2array, p.2 = q.2 → p.1 = q.1) :
    ∃ y0f, run_setup ctx = some y0f ∧
      y0f.length = num_species ctx ∧
      (∀ p ∈ ctx.input_dict.species_initial_conc, ∀ i,
        dict_get ctx.input_dict.species_dict2array p.1 = some i →
        y0f.getD i 0 = p.2 * Cfactor) ∧
      (∀ s i, dict_get ctx.input_dict.species_dict2array s = some i →
        s ∉ ctx.input_dict.species_initial_conc.map Prod.fst →
        y0f.getD i 0 = 0) := by
  have hlen : (List.replicate (num_species ctx) (0 : ℚ)).length = num_species ctx :=
    List.length_replicate _ _
  have hrange' : ∀ p ∈ ctx.input_dict.species_initial_conc,
      ∃ i, dict_get ctx.input_dict.species_dict2array p.1 = some i ∧
        i < (List.replicate (num_species ctx) (0 : ℚ)).length := by
    intro p hp
    obtain ⟨i, hi, hlt⟩ := hrange p hp
    exact ⟨i, hi, by rw [hlen]; exact hlt⟩
  obtain ⟨y0f, hy0f⟩ := build_y0_isSome ctx.input_dict.species_dict2array
    ctx.input_dict.species_initial_conc _ hrange'
  refine ⟨y0f, hy0f, ?_, ?_, ?_⟩
  · rw [build_y0_length _ _ _ _ hy0f, hlen]
  · intro p hp i hi
    obtain ⟨i', hi', hlt'⟩ := hrange p hp
    have hii : i = i' := by
      rw [hi] at hi'
      exact Option.some.inj hi'
    subst hii
    exact build_y0_getD_named ctx.input_dict.species_dict2array hinj
      ctx.input_dict.species_initial_conc _ y0f p.1 p.2 i hnodup hy0f hp hi
      (by rw [hlen]; exact hlt')
  · intro s i hs hnot
    have hunt : ∀ p ∈ ctx.input_dict.species_initial_conc, ∀ i',
        dict_get ctx.input_dict.species_dict2array p.1 = some i' → i' ≠ i := by
      intro p hp i' hi' hcontra
      subst hcontra
      have hm1 := dict_get_some_mem _ _ _ hi'
      have hm2 := dict_get_some_mem _ _ _ hs
      have hps : p.1 = s := hinj (p.1, i') hm1 (s, i') hm2 rfl
      exact hnot (hps ▸ List.mem_map_of_mem Prod.fst hp)
    rw [build_y0_getD_untouched _ i _ _ y0f hy0f hunt, getD_replicate_zero]

/-- Witness for `C9_y0_initialisation` at the concrete two-species
context `ctx0`. -/
theorem C9_y0_initialisation_witness :
    ∃ y0f, run_setup ctx0 = some y0f ∧
      y0f.length = num_species ctx0 ∧
      (∀ p ∈ ctx0.input_dict.species_initial_conc, ∀ i,
        dict_get ctx0.input_dict.species_dict2array p.1 = some i →
        y0f.getD i 0 = p.2 * Cfactor) ∧
      (∀ s i, dict_get ctx0.input_dict.species_dict2array s = some i →
        s ∉ ctx0.input_dict.species_initial_conc.map Prod.fst →
        y0f.getD i 0 = 0) :=
  C9_y0_initialisation ctx0 (by decide)
    (by
      intro p hp
      have hp' : p = ("APINENE", 1) := List.mem_singleton.mp hp
      subst hp'
      exact ⟨0, by decide, by decide⟩)
    (by decide)

end PyBox
